import Mathlib

/-!
Verification of the ORM demo data-access layer (orm_demo.py).

The five entity tables are translated from the model classes in Part 1 of
the source.  Numeric(p, s) columns become rationals, DateTime columns become
natural-number timestamps, nullable columns become Option.  The loading
strategy engine and the transactional store are not part of the repository
source (they live in the ORM library); those parts are modelled from the
specification, as marked on each definition.
-/

namespace OrmDemo

/-- Row of the manufacturers table, from class Manufacturer. -/
structure ManufacturerRow where
  manufacturer_id : Nat
  name : String
  country : String
  founded_year : Option Int
  website : Option String
  created_at : Nat
  deriving DecidableEq

/-- Row of the categories table, from class Category. -/
structure CategoryRow where
  category_id : Nat
  name : String
  description : Option String
  parent_category_id : Option Nat
  deriving DecidableEq

/-- Row of the products table, from class Product. -/
structure ProductRow where
  product_id : Nat
  name : String
  sku : String
  description : Option String
  price : ℚ
  quantity_in_stock : Int
  manufacturer_id : Option Nat
  category_id : Option Nat
  weight_kg : Option ℚ
  is_active : Bool
  created_at : Nat
  updated_at : Nat
  deriving DecidableEq

/-- Row of the orders table, from class Order. -/
structure OrderRow where
  order_id : Nat
  customer_name : String
  customer_email : String
  shipping_address : String
  order_date : Nat
  status : String
  total_amount : Option ℚ
  notes : Option String
  deriving DecidableEq

/-- Row of the order_items table, from class OrderItem. -/
structure OrderItemRow where
  order_item_id : Nat
  order_id : Nat
  product_id : Nat
  quantity : Int
  unit_price : ℚ
  discount_percent : Option ℚ
  deriving DecidableEq

/-- Line total with discount applied, from OrderItem.line_total: a null
discount_percent is replaced by 0 before the computation. -/
def line_total (it : OrderItemRow) : ℚ :=
  let discount_multiplier : ℚ := 1 - (it.discount_percent.getD 0) / 100
  (it.quantity : ℚ) * it.unit_price * discount_multiplier

/-- The relational database state: one list of rows per table, plus the
autoincrement counters for the store-assigned primary keys of orders and
order_items (the two tables the aggregate writer inserts into). -/
structure DB where
  manufacturers : List ManufacturerRow
  categories : List CategoryRow
  products : List ProductRow
  orders : List OrderRow
  order_items : List OrderItemRow
  nextOrderId : Nat
  nextItemId : Nat
  deriving DecidableEq

/-- Modelled from the spec: one operation sent to the store gateway, either a
Query round trip or an Execute round trip.  The round-trip count of a fetch
is the length of its operation trace. -/
inductive StoreOp where
  | query (sql : String)
  | execute (sql : String)
  deriving DecidableEq

/-- True when the store operation is an Execute statement. -/
def StoreOp.isExec : StoreOp → Bool
  | .query _ => false
  | .execute _ => true

/-- Modelled from the spec: the root query of the selectin load in good
pattern 3 — one round trip returning every manufacturer row. -/
def selectManufacturersAll (db : DB) : List ManufacturerRow × List StoreOp :=
  (db.manufacturers, [StoreOp.query "SELECT manufacturers"])

/-- Modelled from the spec: the second query of the batched strategy — one
round trip fetching all product rows whose foreign key is in the given set
of root keys. -/
def selectProductsWhereMfgIn (db : DB) (keys : List Nat) :
    List ProductRow × List StoreOp :=
  (db.products.filter fun p =>
      match p.manufacturer_id with
      | some fk => keys.contains fk
      | none => false,
   [StoreOp.query "SELECT products WHERE manufacturer_id IN keys"])

/-- Modelled from the spec: the batched (selectin) strategy of good pattern 3.
Query 1 fetches the manufacturer roots, query 2 fetches all their products
with a single IN predicate, and the results are stitched in memory by key. -/
def selectinLoadProducts (db : DB) :
    List (ManufacturerRow × List ProductRow) × List StoreOp :=
  let (mfgs, log1) := selectManufacturersAll db
  let keys := mfgs.map (fun m => m.manufacturer_id)
  let (prods, log2) := selectProductsWhereMfgIn db keys
  (mfgs.map fun m =>
      (m, prods.filter fun p => p.manufacturer_id == some m.manufacturer_id),
   log1 ++ log2)

/-- Modelled from the spec: the raw rows a left outer join contributes for one
product root — one row per matching manufacturer, or a single row with a null
manufacturer side when none matches. -/
def joinRowsFor (db : DB) (p : ProductRow) :
    List (ProductRow × Option ManufacturerRow) :=
  let ms := db.manufacturers.filter
    (fun m => p.manufacturer_id == some m.manufacturer_id)
  if ms.isEmpty then [(p, none)] else ms.map fun m => (p, some m)

/-- Modelled from the spec: the single joined-eager query of good pattern 2 —
products filtered by price joined to their manufacturer in one round trip. -/
def joinedQueryProductsMfg (db : DB) (minPrice : ℚ) :
    List (ProductRow × Option ManufacturerRow) × List StoreOp :=
  ((db.products.filter fun p => decide (minPrice < p.price)).flatMap
      (joinRowsFor db),
   [StoreOp.query "SELECT products LEFT OUTER JOIN manufacturers WHERE price gt min"])

/-- Modelled from the spec: deduplication of join rows by root primary key,
keeping the first-seen row for each key and preserving first-seen order. -/
def dedupByRootKey :
    List (ProductRow × Option ManufacturerRow) → List Nat →
      List (ProductRow × Option ManufacturerRow)
  | [], _ => []
  | pr :: rest, seen =>
      if seen.contains pr.1.product_id then dedupByRootKey rest seen
      else pr :: dedupByRootKey rest (pr.1.product_id :: seen)

/-- Modelled from the spec: the joined-eager strategy — one join query, then
in-memory deduplication by root primary key. -/
def joinedLoadProductsMfg (db : DB) (minPrice : ℚ) :
    List (ProductRow × Option ManufacturerRow) × List StoreOp :=
  let (rows, log) := joinedQueryProductsMfg db minPrice
  (dedupByRootKey rows [], log)

/-- Modelled from the spec: the root query of bad pattern 1 — fetch the first
n product rows in one round trip. -/
def selectProductsLimit (db : DB) (n : Nat) : List ProductRow × List StoreOp :=
  (db.products.take n, [StoreOp.query "SELECT products LIMIT n"])

/-- Modelled from the spec: a lazy relationship access — the first access to
product.manufacturer issues one point query by foreign key. -/
def lazyLoadManufacturer (db : DB) (p : ProductRow) :
    Option ManufacturerRow × List StoreOp :=
  (match p.manufacturer_id with
   | some fk => db.manufacturers.find? (fun m => m.manufacturer_id == fk)
   | none => none,
   [StoreOp.query "SELECT manufacturers WHERE manufacturer_id eq fk"])

/-- Modelled from the spec: walking the manufacturer relation of every root
under the lazy strategy, accumulating one point query per root. -/
def lazyWalk (db : DB) : List ProductRow →
    List (ProductRow × Option ManufacturerRow) × List StoreOp
  | [] => ([], [])
  | p :: rest =>
      let (m, l) := lazyLoadManufacturer db p
      let (res, log) := lazyWalk db rest
      ((p, m) :: res, l ++ log)

/-- Modelled from the spec: the N+1 scenario of bad pattern 1 — fetch n roots,
then access product.manufacturer on each of them with no eager hints. -/
def lazyWalkProducts (db : DB) (n : Nat) :
    List (ProductRow × Option ManufacturerRow) × List StoreOp :=
  let (roots, log0) := selectProductsLimit db n
  let (res, log1) := lazyWalk db roots
  (res, log0 ++ log1)

/-- Order header input of the aggregate writer, from the Order constructor
call in populate_sample_data (notes is never supplied there). -/
structure OrderHeader where
  customer_name : String
  customer_email : String
  shipping_address : String
  status : String
  order_date : Nat
  deriving DecidableEq

/-- One line-item input, from the per-item tuples of populate_sample_data:
product id, quantity, unit price and discount percent. -/
structure ItemInput where
  product_id : Nat
  quantity : Int
  unit_price : ℚ
  discount_percent : ℚ
  deriving DecidableEq

/-- The line-total term the populate_sample_data loop adds per item:
qty * price * (1 - discount/100). -/
def lineOfInput (it : ItemInput) : ℚ :=
  (it.quantity : ℚ) * it.unit_price * (1 - it.discount_percent / 100)

/-- Modelled from the spec: the store-side constraint check on a line item —
the order_items.product_id foreign key must reference an existing product
row, else the insert raises a ConstraintViolation. -/
def itemValid (db : DB) (it : ItemInput) : Bool :=
  db.products.any fun p => p.product_id == it.product_id

/-- The order_items row built for one input, referencing the flushed order id
and carrying the next autoincrement item id. -/
def mkItem (nid oid : Nat) (it : ItemInput) : OrderItemRow :=
  { order_item_id := nid
    order_id := oid
    product_id := it.product_id
    quantity := it.quantity
    unit_price := it.unit_price
    discount_percent := some it.discount_percent }

/-- Modelled from the spec: inserting the line items inside the open
transaction.  Each insert is checked against the store constraints; the
first violation aborts the whole sequence (none), otherwise the pending
rows are returned in insertion order. -/
def insertItemsTx (db : DB) (oid : Nat) : Nat → List ItemInput →
    Option (List OrderItemRow)
  | _, [] => some []
  | nid, it :: rest =>
      if itemValid db it then
        match insertItemsTx db oid (nid + 1) rest with
        | some rows => some (mkItem nid oid it :: rows)
        | none => none
      else none

/-- Modelled from the spec: the aggregate writer CreateOrder.  It opens one
transaction, inserts the header, obtains the store-assigned id by flush
(visible before commit), inserts every line item referencing that id,
computes total_amount exactly as the populate_sample_data loop does, and
commits once; any line-item failure rolls the whole transaction back,
returning the store unchanged and no order id. -/
def createOrder (db : DB) (h : OrderHeader) (items : List ItemInput) :
    DB × Option Nat :=
  let oid := db.nextOrderId
  match insertItemsTx db oid db.nextItemId items with
  | none => (db, none)
  | some rows =>
      let total := items.foldl (fun acc it => acc + lineOfInput it) 0
      let header : OrderRow :=
        { order_id := oid
          customer_name := h.customer_name
          customer_email := h.customer_email
          shipping_address := h.shipping_address
          order_date := h.order_date
          status := h.status
          total_amount := some total
          notes := none }
      ({ db with
          orders := db.orders ++ [header]
          order_items := db.order_items ++ rows
          nextOrderId := db.nextOrderId + 1
          nextItemId := db.nextItemId + items.length },
       some oid)

/-- The bad per-item-commit loop from bad_create_order_items: each valid item
is committed on its own, so a failure partway leaves the earlier items
persisted.  Kept for contrast with createOrder; not part of the writer. -/
def badCreateOrderItems (db : DB) (oid : Nat) : Nat → List ItemInput → DB
  | _, [] => db
  | nid, it :: rest =>
      if itemValid db it then
        badCreateOrderItems
          { db with order_items := db.order_items ++ [mkItem nid oid it] }
          oid (nid + 1) rest
      else db

/-- Modelled from the spec: a single-row mutating write through the unit of
work — the updated_at column has an on-update default, so every such write
stamps updated_at with the write time. -/
def ormUpdateProduct (now : Nat) (f : ProductRow → ProductRow)
    (p : ProductRow) : ProductRow :=
  { f p with updated_at := now }

/-- Modelled from the spec: the bulk update of good pattern 7 — one set-based
Execute adding 10 to quantity_in_stock of every product of manufacturer 1,
stamping updated_at, and returning the affected row count reported by the
store.  No query round trip occurs. -/
def bulkUpdateStock (db : DB) (now : Nat) : DB × Nat × List StoreOp :=
  let hit := fun p : ProductRow => p.manufacturer_id == some 1
  ({ db with
      products := db.products.map fun p =>
        if hit p then
          { p with quantity_in_stock := p.quantity_in_stock + 10,
                   updated_at := now }
        else p },
   (db.products.filter hit).length,
   [StoreOp.execute "UPDATE products SET quantity_in_stock plus 10 WHERE manufacturer_id eq 1"])

/-- The five status values the spec enumerates for Order.status. -/
def enumeratedStatuses : List String :=
  ["pending", "processing", "shipped", "delivered", "cancelled"]

/-- Default of the Order.status column, from its Column declaration. -/
def statusDefault : String := "pending"

/-- Declared length bound of the Order.status column: String(20). -/
def statusMaxLength : Nat := 20

/-- Modelled from the spec: the store accepts a value for a String(20) column
exactly when its length is at most 20 — the source places no enum or check
constraint on Order.status. -/
def statusColumnAccepts (s : String) : Bool :=
  decide (s.length ≤ statusMaxLength)

/-- The status values written by populate_sample_data, one per sample order,
in source order. -/
def sampleOrderStatuses : List String :=
  ["delivered", "shipped", "processing", "pending", "cancelled"]

/-- A populated product and manufacturer pair is consistent when the
manufacturer side is exactly the row the foreign key references: a present
manufacturer is a stored row matching the foreign key, and an absent one
means no stored row matches it. -/
def mfgConsistentB (db : DB) (pr : ProductRow × Option ManufacturerRow) : Bool :=
  match pr.2 with
  | some m =>
      decide (m ∈ db.manufacturers) &&
        (pr.1.manufacturer_id == some m.manufacturer_id)
  | none =>
      db.manufacturers.all fun m =>
        !(pr.1.manufacturer_id == some m.manufacturer_id)

/-- A small concrete store used by the witnesses: one manufacturer and one
product, empty order tables, fresh counters at 1. -/
def dbW : DB :=
  { manufacturers := [{ manufacturer_id := 1, name := "TechCorp Industries",
                        country := "USA", founded_year := some 1985,
                        website := none, created_at := 0 }]
    categories := []
    products := [{ product_id := 1, name := "Pro Laptop", sku := "TECH-LAP-001",
                   description := none, price := 1300, quantity_in_stock := 45,
                   manufacturer_id := some 1, category_id := none,
                   weight_kg := none, is_active := true, created_at := 0,
                   updated_at := 0 }]
    orders := []
    order_items := []
    nextOrderId := 1
    nextItemId := 1 }

/-- A concrete order header used by the witnesses. -/
def headerW : OrderHeader :=
  { customer_name := "Alice Johnson"
    customer_email := "alice.example.com"
    shipping_address := "123 Main St"
    status := "pending"
    order_date := 0 }

/-- One valid discounted line item for the existing product. -/
def goodItemsW : List ItemInput :=
  [{ product_id := 1, quantity := 2, unit_price := 1300, discount_percent := 10 }]

/-- Two line items where the second violates the product foreign key. -/
def badItemsW : List ItemInput :=
  [{ product_id := 1, quantity := 1, unit_price := 1300, discount_percent := 0 },
   { product_id := 99, quantity := 1, unit_price := 5, discount_percent := 0 }]

/-- A concrete order item row whose discount_percent is null. -/
def itemNullW : OrderItemRow :=
  { order_item_id := 1, order_id := 1, product_id := 1, quantity := 3,
    unit_price := 5, discount_percent := none }

section WriterLemmas

/-- Folding the running total of the populate_sample_data loop equals the sum
of the per-item terms. -/
theorem foldl_add_line (g : ItemInput → ℚ) :
    ∀ (l : List ItemInput) (acc : ℚ),
      l.foldl (fun a it => a + g it) acc = acc + (l.map g).sum := by
  intro l
  induction l with
  | nil => intro acc; simp
  | cons it rest ih =>
      intro acc
      rw [List.foldl_cons, ih, List.map_cons, List.sum_cons]
      ring

/-- The line total of a built row is the per-item term of the total loop. -/
theorem line_total_mkItem (nid oid : Nat) (it : ItemInput) :
    line_total (mkItem nid oid it) = lineOfInput it := by
  simp [line_total, mkItem, lineOfInput]

/-- A constraint violation on any line item aborts the whole item insertion
sequence. -/
theorem insertItemsTx_invalid (db : DB) (oid : Nat) :
    ∀ (items : List ItemInput) (nid : Nat),
      items.all (itemValid db) = false →
      insertItemsTx db oid nid items = none := by
  intro items
  induction items with
  | nil => intro nid hall; simp at hall
  | cons it rest ih =>
      intro nid hall
      rw [List.all_cons] at hall
      rcases Bool.and_eq_false_iff.mp hall with hv | hrest
      · simp [insertItemsTx, hv]
      · by_cases hv : itemValid db it
        · simp [insertItemsTx, hv, ih (nid + 1) hrest]
        · simp [insertItemsTx, hv]

/-- When every line item passes the constraints, the insertion sequence
returns rows that all reference the flushed order id, whose line totals are
exactly the per-item terms of the total loop. -/
theorem insertItemsTx_valid (db : DB) (oid : Nat) :
    ∀ (items : List ItemInput) (nid : Nat),
      items.all (itemValid db) = true →
      ∃ rows, insertItemsTx db oid nid items = some rows ∧
        (∀ r ∈ rows, r.order_id = oid) ∧
        rows.map line_total = items.map lineOfInput := by
  intro items
  induction items with
  | nil => intro nid _; exact ⟨[], rfl, by simp, by simp⟩
  | cons it rest ih =>
      intro nid hall
      rw [List.all_cons, Bool.and_eq_true] at hall
      obtain ⟨rows, hrows, hoid, hmap⟩ := ih (nid + 1) hall.2
      refine ⟨mkItem nid oid it :: rows, ?_, ?_, ?_⟩
      · simp [insertItemsTx, hall.1, hrows]
      · intro r hr
        rcases List.mem_cons.mp hr with h | h
        · rw [h]; rfl
        · exact hoid r h
      · rw [List.map_cons, List.map_cons, hmap, line_total_mkItem]

end WriterLemmas

/-- C1: CreateOrder is atomic — a constraint violation on any of the line
items rolls the whole transaction back: the store is unchanged, there are
zero order rows and zero item rows carrying the order id that was to be
assigned, and the caller receives no OrderID. -/
theorem createOrder_atomic_rollback (db : DB) (h : OrderHeader)
    (items : List ItemInput)
    (hbad : items.all (itemValid db) = false)
    (ho : db.orders.all (fun o => o.order_id != db.nextOrderId) = true)
    (hi : db.order_items.all (fun r => r.order_id != db.nextOrderId) = true) :
    createOrder db h items = (db, none) ∧
    (createOrder db h items).1.orders.filter
      (fun o => o.order_id == db.nextOrderId) = [] ∧
    (createOrder db h items).1.order_items.filter
      (fun r => r.order_id == db.nextOrderId) = [] := by
  have hnone := insertItemsTx_invalid db db.nextOrderId items db.nextItemId hbad
  have h1 : createOrder db h items = (db, none) := by
    simp [createOrder, hnone]
  refine ⟨h1, ?_, ?_⟩
  · rw [h1]
    rw [List.filter_eq_nil_iff]
    intro o hmem
    have := List.all_eq_true.mp ho o hmem
    simpa using this
  · rw [h1]
    rw [List.filter_eq_nil_iff]
    intro r hmem
    have := List.all_eq_true.mp hi r hmem
    simpa using this

/-- C1 witness: a concrete store with one product, and a two-item order whose
second item violates the product foreign key — the writer leaves the store
unchanged and returns no order id. -/
theorem createOrder_atomic_rollback_w :
    badItemsW.all (itemValid dbW) = false ∧
    (createOrder dbW headerW badItemsW = (dbW, none) ∧
      (createOrder dbW headerW badItemsW).1.orders.filter
        (fun o => o.order_id == dbW.nextOrderId) = [] ∧
      (createOrder dbW headerW badItemsW).1.order_items.filter
        (fun r => r.order_id == dbW.nextOrderId) = []) :=
  ⟨by decide,
   createOrder_atomic_rollback dbW headerW badItemsW
     (by decide) (by decide) (by decide)⟩

/-- C2: for an order committed by the writer, total_amount equals the sum of
the line_total values of its order items (exact equality in the rational
model). -/
theorem total_amount_eq_sum_line_totals (db : DB) (h : OrderHeader)
    (items : List ItemInput)
    (hok : items.all (itemValid db) = true)
    (ho : db.orders.all (fun o => o.order_id != db.nextOrderId) = true)
    (hi : db.order_items.all (fun r => r.order_id != db.nextOrderId) = true) :
    ((createOrder db h items).1.orders.filter
        (fun o => o.order_id == db.nextOrderId)).map
      (fun o => o.total_amount) =
    [some ((((createOrder db h items).1.order_items.filter
        (fun r => r.order_id == db.nextOrderId)).map line_total).sum)] := by
  obtain ⟨rows, hrows, hoid, hmap⟩ :=
    insertItemsTx_valid db db.nextOrderId items db.nextItemId hok
  simp only [createOrder, hrows]
  rw [List.filter_append, List.filter_append]
  have horders : db.orders.filter (fun o => o.order_id == db.nextOrderId) = [] := by
    rw [List.filter_eq_nil_iff]
    intro o hmem
    simpa using List.all_eq_true.mp ho o hmem
  have hitems : db.order_items.filter (fun r => r.order_id == db.nextOrderId) = [] := by
    rw [List.filter_eq_nil_iff]
    intro r hmem
    simpa using List.all_eq_true.mp hi r hmem
  have hkeep : rows.filter (fun r => r.order_id == db.nextOrderId) = rows := by
    rw [List.filter_eq_self]
    intro r hr
    simp [hoid r hr]
  rw [horders, hitems, hkeep]
  simp only [List.nil_append]
  rw [List.filter_cons_of_pos (by simp), List.filter_nil]
  simp only [List.map_cons, List.map_nil]
  rw [hmap, foldl_add_line lineOfInput items 0, zero_add]

/-- C2 witness: on a concrete store and one discounted line item, the
committed total_amount is the sum of the item line totals. -/
theorem total_amount_eq_sum_line_totals_w :
    goodItemsW.all (itemValid dbW) = true ∧
    ((createOrder dbW headerW goodItemsW).1.orders.filter
        (fun o => o.order_id == dbW.nextOrderId)).map
      (fun o => o.total_amount) =
    [some ((((createOrder dbW headerW goodItemsW).1.order_items.filter
        (fun r => r.order_id == dbW.nextOrderId)).map line_total).sum)] :=
  ⟨by decide,
   total_amount_eq_sum_line_totals dbW headerW goodItemsW
     (by decide) (by decide) (by decide)⟩

/-- C7: within one CreateOrder transaction the flushed order id is visible
before commit — the returned id is the store counter at entry, the header
row carries it, and every inserted line item references exactly that id. -/
theorem flush_id_visible_in_tx (db : DB) (h : OrderHeader)
    (items : List ItemInput)
    (hok : items.all (itemValid db) = true) :
    (createOrder db h items).2 = some db.nextOrderId ∧
    ((createOrder db h items).1.order_items.drop
        db.order_items.length).all
      (fun r => r.order_id == db.nextOrderId) = true ∧
    ((createOrder db h items).1.order_items.drop
        db.order_items.length).length = items.length ∧
    ((createOrder db h items).1.orders.map
        (fun o => o.order_id)).contains db.nextOrderId = true := by
  obtain ⟨rows, hrows, hoid, hmap⟩ :=
    insertItemsTx_valid db db.nextOrderId items db.nextItemId hok
  have hlen : rows.length = items.length := by
    have := congrArg List.length hmap
    simpa using this
  simp only [createOrder, hrows]
  refine ⟨by simp, ?_, ?_, ?_⟩
  · rw [List.drop_left]
    rw [List.all_eq_true]
    intro r hr
    simp [hoid r hr]
  · rw [List.drop_left, hlen]
  · rw [List.map_append]
    simp

/-- C7 witness: on a concrete store the writer returns the flushed id 1, the
single inserted item references id 1, and the header row with id 1 is
present. -/
theorem flush_id_visible_in_tx_w :
    goodItemsW.all (itemValid dbW) = true ∧
    ((createOrder dbW headerW goodItemsW).2 = some dbW.nextOrderId ∧
      ((createOrder dbW headerW goodItemsW).1.order_items.drop
          dbW.order_items.length).all
        (fun r => r.order_id == dbW.nextOrderId) = true ∧
      ((createOrder dbW headerW goodItemsW).1.order_items.drop
          dbW.order_items.length).length = goodItemsW.length ∧
      ((createOrder dbW headerW goodItemsW).1.orders.map
          (fun o => o.order_id)).contains dbW.nextOrderId = true) :=
  ⟨by decide, flush_id_visible_in_tx dbW headerW goodItemsW (by decide)⟩

/-- C10: line_total is total on a null discount_percent — the null is treated
as 0 and the result is quantity times unit_price. -/
theorem line_total_total_on_null_discount (it : OrderItemRow)
    (h : it.discount_percent = none) :
    line_total it = (it.quantity : ℚ) * it.unit_price := by
  simp [line_total, h]

/-- C10 witness: a concrete item with a null discount evaluates to quantity
times unit price. -/
theorem line_total_total_on_null_discount_w :
    itemNullW.discount_percent = none ∧
    line_total itemNullW = (itemNullW.quantity : ℚ) * itemNullW.unit_price :=
  ⟨rfl, line_total_total_on_null_discount itemNullW rfl⟩

section EngineLemmas

/-- The lazy walk issues exactly one store operation per root. -/
theorem lazyWalk_log_length (db : DB) :
    ∀ roots : List ProductRow, (lazyWalk db roots).2.length = roots.length := by
  intro roots
  induction roots with
  | nil => rfl
  | cons p rest ih => simp [lazyWalk, lazyLoadManufacturer, ih]

/-- The lazy walk returns the roots in order, each paired with its lazily
resolved manufacturer. -/
theorem lazyWalk_roots (db : DB) :
    ∀ roots : List ProductRow, (lazyWalk db roots).1.map Prod.fst = roots := by
  intro roots
  induction roots with
  | nil => rfl
  | cons p rest ih => simp [lazyWalk, ih]

/-- Unfolding equation of dedupByRootKey when the key was already seen. -/
theorem dedupByRootKey_cons_mem (pr : ProductRow × Option ManufacturerRow)
    (rest : List (ProductRow × Option ManufacturerRow)) (seen : List Nat)
    (hs : pr.1.product_id ∈ seen) :
    dedupByRootKey (pr :: rest) seen = dedupByRootKey rest seen := by
  simp [dedupByRootKey, hs]

/-- Unfolding equation of dedupByRootKey on a fresh key. -/
theorem dedupByRootKey_cons_not_mem (pr : ProductRow × Option ManufacturerRow)
    (rest : List (ProductRow × Option ManufacturerRow)) (seen : List Nat)
    (hs : pr.1.product_id ∉ seen) :
    dedupByRootKey (pr :: rest) seen =
      pr :: dedupByRootKey rest (pr.1.product_id :: seen) := by
  simp [dedupByRootKey, hs]

/-- Deduplication only drops rows: its output is a sublist of its input, so
first-seen order is preserved. -/
theorem dedupByRootKey_sublist :
    ∀ (rows : List (ProductRow × Option ManufacturerRow)) (seen : List Nat),
      List.Sublist (dedupByRootKey rows seen) rows := by
  intro rows
  induction rows with
  | nil => intro seen; simp [dedupByRootKey]
  | cons pr rest ih =>
      intro seen
      by_cases hs : pr.1.product_id ∈ seen
      · rw [dedupByRootKey_cons_mem pr rest seen hs]
        exact (ih seen).cons pr
      · rw [dedupByRootKey_cons_not_mem pr rest seen hs]
        exact (ih (pr.1.product_id :: seen)).cons₂ pr

/-- The root keys surviving deduplication are pairwise distinct and disjoint
from the keys already seen. -/
theorem dedupByRootKey_keys :
    ∀ (rows : List (ProductRow × Option ManufacturerRow)) (seen : List Nat),
      ((dedupByRootKey rows seen).map (fun pr => pr.1.product_id)).Nodup ∧
      ∀ k ∈ (dedupByRootKey rows seen).map (fun pr => pr.1.product_id),
        k ∉ seen := by
  intro rows
  induction rows with
  | nil => intro seen; simp [dedupByRootKey]
  | cons pr rest ih =>
      intro seen
      by_cases hs : pr.1.product_id ∈ seen
      · rw [dedupByRootKey_cons_mem pr rest seen hs]
        exact ih seen
      · rw [dedupByRootKey_cons_not_mem pr rest seen hs]
        obtain ⟨ihn, ihs⟩ := ih (pr.1.product_id :: seen)
        constructor
        · rw [List.map_cons, List.nodup_cons]
          refine ⟨fun hmem => ?_, ihn⟩
          exact (ihs pr.1.product_id hmem) (List.mem_cons_self _ _)
        · intro k hk
          rw [List.map_cons, List.mem_cons] at hk
          rcases hk with hk | hk
          · rw [hk]; exact hs
          · intro hkseen
            exact (ihs k hk) (List.mem_cons_of_mem _ hkseen)

/-- Every raw join row for a root carries that root as its first component
and a consistent manufacturer side. -/
theorem joinRowsFor_mem (db : DB) (p : ProductRow)
    (pr : ProductRow × Option ManufacturerRow)
    (hpr : pr ∈ joinRowsFor db p) :
    pr.1 = p ∧ mfgConsistentB db pr = true := by
  simp only [joinRowsFor] at hpr
  by_cases hemp : (db.manufacturers.filter
      (fun m => p.manufacturer_id == some m.manufacturer_id)).isEmpty
  · rw [if_pos hemp] at hpr
    have hpr2 : pr = (p, none) := by simpa using hpr
    subst hpr2
    refine ⟨rfl, ?_⟩
    have hnil := List.isEmpty_iff.mp hemp
    rw [List.filter_eq_nil_iff] at hnil
    simp only [mfgConsistentB]
    rw [List.all_eq_true]
    intro m hm
    simpa using hnil m hm
  · rw [if_neg hemp] at hpr
    obtain ⟨m, hm, hpr2⟩ := List.mem_map.mp hpr
    have hm2 := List.mem_filter.mp hm
    subst hpr2
    refine ⟨rfl, ?_⟩
    simp only [mfgConsistentB, Bool.and_eq_true]
    exact ⟨by simpa using hm2.1, hm2.2⟩

/-- Mapping a row transformation that preserves a predicate does not change
the number of rows satisfying it. -/
theorem length_filter_map_pres (f : ProductRow → ProductRow)
    (hit : ProductRow → Bool) (hpres : ∀ p, hit (f p) = hit p) :
    ∀ l : List ProductRow,
      ((l.map f).filter hit).length = (l.filter hit).length := by
  intro l
  induction l with
  | nil => rfl
  | cons p rest ih =>
      simp only [List.map_cons, List.filter_cons, hpres p]
      cases h : hit p <;> simp [h, ih]

end EngineLemmas

/-- C3: the batched (selectin) strategy issues exactly 2 store round trips on
any store contents — one query for the roots and one for all their related
rows — independent of the number N of roots, and stitches each manufacturer
with exactly its own product rows. -/
theorem selectin_two_round_trips (db : DB) :
    (selectinLoadProducts db).2.length = 2 ∧
    (selectinLoadProducts db).1 =
      db.manufacturers.map (fun m =>
        (m, db.products.filter fun p =>
              p.manufacturer_id == some m.manufacturer_id)) := by
  refine ⟨rfl, ?_⟩
  simp only [selectinLoadProducts, selectManufacturersAll,
    selectProductsWhereMfgIn]
  apply List.map_congr_left
  intro m hm
  rw [List.filter_filter]
  refine congrArg (fun l => (m, l)) ?_
  apply List.filter_congr
  intro p _
  cases hpm : p.manufacturer_id == some m.manufacturer_id with
  | false => simp
  | true =>
      have heq : p.manufacturer_id = some m.manufacturer_id := by
        simpa using hpm
      simp only [Bool.true_and, heq]
      rw [List.contains_iff_exists_mem_beq]
      exact ⟨m.manufacturer_id, List.mem_map_of_mem _ hm, by simp⟩

/-- C4: the joined-eager fetch of products over price 100 with manufacturer
issues exactly 1 round trip; the result is deduplicated by root primary key
(no duplicate product ids) preserving first-seen order (a sublist of the raw
join rows), and every returned product matches the price filter and carries
the manufacturer row its foreign key references, with no further trips. -/
theorem joined_one_trip_dedup (db : DB) :
    (joinedLoadProductsMfg db 100).2.length = 1 ∧
    ((joinedLoadProductsMfg db 100).1.map (fun pr => pr.1.product_id)).Nodup ∧
    List.Sublist (joinedLoadProductsMfg db 100).1
      (joinedQueryProductsMfg db 100).1 ∧
    (joinedLoadProductsMfg db 100).1.all
      (fun pr => decide ((100 : ℚ) < pr.1.price) && mfgConsistentB db pr) =
      true := by
  have hres : (joinedLoadProductsMfg db 100).1 =
      dedupByRootKey (joinedQueryProductsMfg db 100).1 [] := rfl
  refine ⟨rfl, ?_, ?_, ?_⟩
  · rw [hres]; exact (dedupByRootKey_keys _ []).1
  · rw [hres]; exact dedupByRootKey_sublist _ []
  · rw [List.all_eq_true]
    intro pr hpr
    rw [hres] at hpr
    have hsub : pr ∈ (joinedQueryProductsMfg db 100).1 :=
      (dedupByRootKey_sublist _ []).subset hpr
    simp only [joinedQueryProductsMfg] at hsub
    obtain ⟨p, hp, hpr2⟩ := List.mem_flatMap.mp hsub
    have hp2 := List.mem_filter.mp hp
    obtain ⟨hfst, hcons⟩ := joinRowsFor_mem db p pr hpr2
    rw [Bool.and_eq_true]
    refine ⟨?_, hcons⟩
    rw [hfst]
    exact hp2.2

/-- C5: under the lazy strategy, fetching the first n product roots and then
accessing the manufacturer of each issues exactly one point query per root on
top of the single root query — N+1 round trips in total for N roots. -/
theorem lazy_walk_n_plus_one (db : DB) (n : Nat) :
    (lazyWalkProducts db n).2.length = (db.products.take n).length + 1 ∧
    (lazyWalkProducts db n).1.map Prod.fst = db.products.take n := by
  constructor
  · simp only [lazyWalkProducts, selectProductsLimit]
    simp [lazyWalk_log_length db (db.products.take n), Nat.add_comm]
  · simp only [lazyWalkProducts, selectProductsLimit]
    simp [lazyWalk_roots]

/-- C6: the bulk update executes as exactly one set-based Execute statement
(no query, hence no per-row fetch), returns the number of matching rows as
the store reports it, updates exactly those rows in place and leaves the
table cardinality unchanged. -/
theorem bulkUpdate_single_set_based (db : DB) (now : Nat) :
    (bulkUpdateStock db now).2.2.length = 1 ∧
    (bulkUpdateStock db now).2.2.all StoreOp.isExec = true ∧
    (bulkUpdateStock db now).2.1 =
      (db.products.filter fun p => p.manufacturer_id == some 1).length ∧
    ((bulkUpdateStock db now).1.products.filter
        fun p => p.manufacturer_id == some 1).length =
      (bulkUpdateStock db now).2.1 ∧
    (bulkUpdateStock db now).1.products.length = db.products.length := by
  refine ⟨rfl, rfl, rfl, ?_, by simp [bulkUpdateStock]⟩
  simp only [bulkUpdateStock]
  apply length_filter_map_pres
  intro p
  by_cases h : (p.manufacturer_id == some 1) = true <;> simp [h]

/-- C9: Product.updated_at is refreshed on every mutating write — a
single-row write through the unit of work stamps it with the write time, and
so does the set-based bulk update for every row it touches. -/
theorem updated_at_refreshed_on_write (db : DB) (now : Nat)
    (f : ProductRow → ProductRow) (p : ProductRow) :
    (ormUpdateProduct now f p).updated_at = now ∧
    ((bulkUpdateStock db now).1.products.filter
        (fun q => q.manufacturer_id == some 1)).all
      (fun q => q.updated_at == now) = true := by
  refine ⟨rfl, ?_⟩
  rw [List.all_eq_true]
  intro q hq
  have hq2 := List.mem_filter.mp hq
  have hq1 := hq2.1
  simp only [bulkUpdateStock] at hq1
  obtain ⟨r, hr, hfr⟩ := List.mem_map.mp hq1
  by_cases hhit : (r.manufacturer_id == some 1) = true
  · rw [if_pos hhit] at hfr
    rw [← hfr]
    simp
  · rw [if_neg hhit] at hfr
    rw [← hfr] at hq2
    exact absurd hq2.2 hhit

/-- C8 counterexample: the Order.status column is a plain String(20) with no
enum or check constraint, so a value outside the five enumerated statuses —
here the string archived — is accepted by the schema. -/
theorem status_enum_not_enforced :
    statusColumnAccepts "archived" = true ∧
    enumeratedStatuses.contains "archived" = false := by
  constructor
  · decide
  · decide

/-- C8 (amended): Order.status defaults to pending, and every status value
the program writes (the sample data) is one of the five enumerated values —
but the column itself is an unconstrained String(20), so the schema does not
reject other values. -/
theorem status_default_and_sample_values :
    statusDefault = "pending" ∧
    enumeratedStatuses.contains statusDefault = true ∧
    sampleOrderStatuses.all
      (fun s => enumeratedStatuses.contains s && statusColumnAccepts s) =
      true := by
  refine ⟨rfl, by decide, by decide⟩

end OrmDemo
